import Mathlib

/-!
Shallow embedding of `snakesim/snake_driver.py` (differential IK resolver,
orientation extractor, driver step and init-joint-state service) over exact
real arithmetic, together with theorems settling the specification claims.

The kinematic-model collaborator (`robot.py`, class `Robot` with `jacobian`
and `q0dot`) is not part of the sources; it is modelled from the spec as an
abstract record of two functions (spec §4.3).  `np.linalg.pinv` is embedded
as the Moore–Penrose pseudo-inverse, constructed here from the spectral
decomposition of `A * Aᴴ` and proved to satisfy the Penrose axioms.
-/

open Matrix

/-- `N_JOINTS = 7` from the source. -/
def N_JOINTS : ℕ := 7

/-- `RAD_120 = np.deg2rad(120)`, i.e. `120·(π/180)` radians. -/
noncomputable def RAD_120 : ℝ := 120 * (Real.pi / 180)

/-- `np.clip(x, lo, hi)` on one scalar component. -/
noncomputable def clip (x lo hi : ℝ) : ℝ := min (max x lo) hi

/-! ### The Moore–Penrose pseudo-inverse (embedding of `np.linalg.pinv`) -/

/-- The unitary (here: real orthogonal) matrix of eigenvectors of a
symmetric real matrix, from the spectral theorem. -/
noncomputable def specU {m : Type*} [Fintype m] [DecidableEq m] {G : Matrix m m ℝ}
    (hG : G.IsHermitian) : Matrix m m ℝ :=
  hG.eigenvectorUnitary

lemma specU_mul_star {m : Type*} [Fintype m] [DecidableEq m] {G : Matrix m m ℝ}
    (hG : G.IsHermitian) : specU hG * star (specU hG) = 1 :=
  (Matrix.mem_unitaryGroup_iff).mp hG.eigenvectorUnitary.2

lemma star_specU_mul {m : Type*} [Fintype m] [DecidableEq m] {G : Matrix m m ℝ}
    (hG : G.IsHermitian) : star (specU hG) * specU hG = 1 :=
  (Matrix.mem_unitaryGroup_iff').mp hG.eigenvectorUnitary.2

lemma spectral_real {m : Type*} [Fintype m] [DecidableEq m] {G : Matrix m m ℝ}
    (hG : G.IsHermitian) :
    G = specU hG * diagonal hG.eigenvalues * star (specU hG) := by
  have h := hG.spectral_theorem
  rwa [show RCLike.ofReal ∘ hG.eigenvalues = hG.eigenvalues from by
    rw [RCLike.ofReal_real_eq_id, Function.id_comp]] at h

lemma sandwich_mul {m : Type*} [Fintype m] [DecidableEq m] (U : Matrix m m ℝ)
    (hU : star U * U = 1) (d e : m → ℝ) :
    (U * diagonal d * star U) * (U * diagonal e * star U) =
      U * diagonal (fun i => d i * e i) * star U := by
  have h1 : diagonal d * (star U * (U * (diagonal e * star U)))
      = diagonal (fun i => d i * e i) * star U := by
    rw [← Matrix.mul_assoc (star U) U, hU, Matrix.one_mul, ← Matrix.mul_assoc,
      diagonal_mul_diagonal]
  calc (U * diagonal d * star U) * (U * diagonal e * star U)
      = U * (diagonal d * (star U * (U * (diagonal e * star U)))) := by
        simp only [Matrix.mul_assoc]
    _ = U * (diagonal (fun i => d i * e i) * star U) := by rw [h1]
    _ = U * diagonal (fun i => d i * e i) * star U := by rw [Matrix.mul_assoc]

/-- Pseudo-inverse of a symmetric real matrix: invert the nonzero eigenvalues
(in `ℝ`, `0⁻¹ = 0`, so the zero eigenvalues stay zero). -/
noncomputable def symPinv {m : Type*} [Fintype m] [DecidableEq m] {G : Matrix m m ℝ}
    (hG : G.IsHermitian) : Matrix m m ℝ :=
  specU hG * diagonal (fun i => (hG.eigenvalues i)⁻¹) * star (specU hG)

lemma symPinv_def {m : Type*} [Fintype m] [DecidableEq m] {G : Matrix m m ℝ}
    (hG : G.IsHermitian) :
    symPinv hG = specU hG * diagonal (fun i => (hG.eigenvalues i)⁻¹) * star (specU hG) :=
  rfl

lemma sandwich_triple {m : Type*} [Fintype m] [DecidableEq m] (U : Matrix m m ℝ)
    (hU : star U * U = 1) (d e f : m → ℝ) :
    (U * diagonal d * star U) * (U * diagonal e * star U) * (U * diagonal f * star U) =
      U * diagonal (fun i => d i * e i * f i) * star U := by
  rw [sandwich_mul U hU d e, sandwich_mul U hU _ f]

lemma symPinv_penrose1 {m : Type*} [Fintype m] [DecidableEq m] {G : Matrix m m ℝ}
    (hG : G.IsHermitian) : G * symPinv hG * G = G := by
  have h := sandwich_triple (specU hG) (star_specU_mul hG) hG.eigenvalues
    (fun i => (hG.eigenvalues i)⁻¹) hG.eigenvalues
  have h3 : (fun i => hG.eigenvalues i * (hG.eigenvalues i)⁻¹ * hG.eigenvalues i)
      = hG.eigenvalues := by
    funext i
    rcases eq_or_ne (hG.eigenvalues i) 0 with h0 | h0
    · simp [h0]
    · field_simp
  rw [h3] at h
  rw [← spectral_real hG] at h
  rw [symPinv_def hG]
  exact h

lemma symPinv_penrose2 {m : Type*} [Fintype m] [DecidableEq m] {G : Matrix m m ℝ}
    (hG : G.IsHermitian) : symPinv hG * G * symPinv hG = symPinv hG := by
  have h := sandwich_triple (specU hG) (star_specU_mul hG)
    (fun i => (hG.eigenvalues i)⁻¹) hG.eigenvalues (fun i => (hG.eigenvalues i)⁻¹)
  have h3 : (fun i => (hG.eigenvalues i)⁻¹ * hG.eigenvalues i * (hG.eigenvalues i)⁻¹)
      = fun i => (hG.eigenvalues i)⁻¹ := by
    funext i
    rcases eq_or_ne (hG.eigenvalues i) 0 with h0 | h0
    · simp [h0]
    · field_simp
  rw [h3] at h
  rw [← spectral_real hG] at h
  rw [symPinv_def hG]
  exact h

lemma symPinv_comm {m : Type*} [Fintype m] [DecidableEq m] {G : Matrix m m ℝ}
    (hG : G.IsHermitian) : G * symPinv hG = symPinv hG * G := by
  have h1 := sandwich_mul (specU hG) (star_specU_mul hG) hG.eigenvalues
    (fun i => (hG.eigenvalues i)⁻¹)
  have h2 := sandwich_mul (specU hG) (star_specU_mul hG)
    (fun i => (hG.eigenvalues i)⁻¹) hG.eigenvalues
  have h3 : (fun i => hG.eigenvalues i * (hG.eigenvalues i)⁻¹)
      = fun i => (hG.eigenvalues i)⁻¹ * hG.eigenvalues i := by
    funext i; ring
  rw [h3] at h1
  have h4 := h1.trans h2.symm
  rw [← spectral_real hG] at h4
  exact h4

lemma symPinv_conjTranspose {m : Type*} [Fintype m] [DecidableEq m] {G : Matrix m m ℝ}
    (hG : G.IsHermitian) : (symPinv hG)ᴴ = symPinv hG := by
  unfold symPinv
  rw [Matrix.star_eq_conjTranspose, Matrix.conjTranspose_mul, Matrix.conjTranspose_mul,
    Matrix.conjTranspose_conjTranspose, diagonal_conjTranspose]
  have h : (star fun i => (hG.eigenvalues i)⁻¹) = fun i => (hG.eigenvalues i)⁻¹ := by
    funext i; simp
  rw [h, ← Matrix.mul_assoc]

/-- Embedding of `np.linalg.pinv`: the Moore–Penrose pseudo-inverse of a real
matrix, as `Aᴴ * (A * Aᴴ)⁺`.  The four Penrose axioms are proved below
(`pinv_penrose1` … `pinv_penrose4`), which characterise it uniquely. -/
noncomputable def pinv {mr nc : Type*} [Fintype mr] [Fintype nc] [DecidableEq mr]
    (A : Matrix mr nc ℝ) : Matrix nc mr ℝ :=
  Aᴴ * symPinv (isHermitian_mul_conjTranspose_self A)

lemma gram_symPinv_mul {mr nc : Type*} [Fintype mr] [Fintype nc] [DecidableEq mr]
    (A : Matrix mr nc ℝ) :
    A * Aᴴ * symPinv (isHermitian_mul_conjTranspose_self A) * A = A := by
  set P := symPinv (isHermitian_mul_conjTranspose_self A) with hP
  have h0 : (1 - A * Aᴴ * P) * (A * Aᴴ) = 0 := by
    rw [Matrix.sub_mul, Matrix.one_mul]
    have h := symPinv_penrose1 (isHermitian_mul_conjTranspose_self A)
    rw [← hP] at h
    rw [h, sub_self]
  have h1 : (1 - A * Aᴴ * P) * A = 0 :=
    (Matrix.mul_self_mul_conjTranspose_eq_zero A _).mp h0
  rw [Matrix.sub_mul, Matrix.one_mul, sub_eq_zero] at h1
  exact h1.symm

/-- Penrose axiom 1: `A · A⁺ · A = A`. -/
lemma pinv_penrose1 {mr nc : Type*} [Fintype mr] [Fintype nc] [DecidableEq mr]
    (A : Matrix mr nc ℝ) : A * pinv A * A = A := by
  unfold pinv
  rw [← Matrix.mul_assoc]
  exact gram_symPinv_mul A

/-- Penrose axiom 2: `A⁺ · A · A⁺ = A⁺`. -/
lemma pinv_penrose2 {mr nc : Type*} [Fintype mr] [Fintype nc] [DecidableEq mr]
    (A : Matrix mr nc ℝ) : pinv A * A * pinv A = pinv A := by
  unfold pinv
  set hG := isHermitian_mul_conjTranspose_self A
  calc Aᴴ * symPinv hG * A * (Aᴴ * symPinv hG)
      = Aᴴ * (symPinv hG * (A * Aᴴ) * symPinv hG) := by
        simp only [Matrix.mul_assoc]
    _ = Aᴴ * symPinv hG := by rw [symPinv_penrose2 hG]

/-- Penrose axiom 3: `A · A⁺` is symmetric. -/
lemma pinv_penrose3 {mr nc : Type*} [Fintype mr] [Fintype nc] [DecidableEq mr]
    (A : Matrix mr nc ℝ) : (A * pinv A)ᴴ = A * pinv A := by
  unfold pinv
  set hG := isHermitian_mul_conjTranspose_self A
  have h1 : A * (Aᴴ * symPinv hG) = A * Aᴴ * symPinv hG := by
    rw [Matrix.mul_assoc]
  rw [h1, Matrix.conjTranspose_mul, symPinv_conjTranspose hG, hG.eq, symPinv_comm hG]

/-- Penrose axiom 4: `A⁺ · A` is symmetric. -/
lemma pinv_penrose4 {mr nc : Type*} [Fintype mr] [Fintype nc] [DecidableEq mr]
    (A : Matrix mr nc ℝ) : (pinv A * A)ᴴ = pinv A * A := by
  unfold pinv
  set hG := isHermitian_mul_conjTranspose_self A
  rw [Matrix.conjTranspose_mul, Matrix.conjTranspose_mul,
    Matrix.conjTranspose_conjTranspose, symPinv_conjTranspose hG, Matrix.mul_assoc]

/-- The range of the null-space projector `1 - A⁺·A` is killed by `A`. -/
lemma mul_one_sub_pinv_mul {mr nc : Type*} [Fintype mr] [Fintype nc] [DecidableEq mr]
    [DecidableEq nc] (A : Matrix mr nc ℝ) : A * (1 - pinv A * A) = 0 := by
  rw [Matrix.mul_sub, Matrix.mul_one, ← Matrix.mul_assoc, pinv_penrose1, sub_self]

lemma nullspace_mulVec {mr nc : Type*} [Fintype mr] [Fintype nc] [DecidableEq mr]
    [DecidableEq nc] (A : Matrix mr nc ℝ) (v : nc → ℝ) :
    A *ᵥ ((1 - pinv A * A) *ᵥ v) = 0 := by
  rw [Matrix.mulVec_mulVec, mul_one_sub_pinv_mul, Matrix.zero_mulVec]

/-- The pseudo-inverse of the zero matrix is zero. -/
lemma pinv_zero {mr nc : Type*} [Fintype mr] [Fintype nc] [DecidableEq mr] :
    pinv (0 : Matrix mr nc ℝ) = 0 := by
  unfold pinv
  calc (0 : Matrix mr nc ℝ)ᴴ * symPinv (isHermitian_mul_conjTranspose_self 0)
      = 0 * symPinv (isHermitian_mul_conjTranspose_self 0) :=
        congrArg (fun X => X * symPinv (isHermitian_mul_conjTranspose_self 0))
          Matrix.conjTranspose_zero
    _ = 0 := Matrix.zero_mul _

/-! ### The kinematic-model collaborator and the differential IK resolver -/

/-- Modelled from the spec: the kinematic-model collaborator (`robot.py`,
class `Robot`, absent from the sources) exposes two pure functions of the
current joint configuration, `jacobian(q) -> 3×N matrix` and
`q0dot(q, k0) -> N-vector` (spec §4.3). -/
structure Robot where
  jacobian : (Fin N_JOINTS → ℝ) → Matrix (Fin 3) (Fin N_JOINTS) ℝ
  q0dot : (Fin N_JOINTS → ℝ) → ℝ → (Fin N_JOINTS → ℝ)

/-- Modelled from the spec: `q0dot` must return the zero vector whenever
`k0 = 0` (spec §4.3, required by the §4.1 guarantee). -/
def Robot.q0dotContract (r : Robot) : Prop := ∀ q, r.q0dot q 0 = 0

/-- The joint velocity of `update_joint_position` (source line 146):
`dq = (JT @ dx) + (eye(N_JOINTS) - JT @ J) @ q0dot` with `JT = pinv(J)`,
`J = robot.jacobian(q)` and `q0dot = robot.q0dot(q, k0)`. -/
noncomputable def dq (r : Robot) (q : Fin N_JOINTS → ℝ) (dx : Fin 3 → ℝ) (k0 : ℝ) :
    Fin N_JOINTS → ℝ :=
  pinv (r.jacobian q) *ᵥ dx + (1 - pinv (r.jacobian q) * r.jacobian q) *ᵥ r.q0dot q k0

/-- The integrated, unclamped candidate `q + dq·dt` (source line 148, inside
`np.clip`). -/
noncomputable def q_candidate (r : Robot) (q : Fin N_JOINTS → ℝ) (dx : Fin 3 → ℝ)
    (k0 dt : ℝ) : Fin N_JOINTS → ℝ :=
  fun i => q i + dq r q dx k0 i * dt

/-- `update_joint_position` (source lines 139-148):
`np.clip(q + dq.flatten() * dt, -RAD_120, RAD_120)`. -/
noncomputable def update_joint_position (r : Robot) (q : Fin N_JOINTS → ℝ)
    (dx : Fin 3 → ℝ) (k0 dt : ℝ) : Fin N_JOINTS → ℝ :=
  fun i => clip (q_candidate r q dx k0 dt i) (-RAD_120) RAD_120

/-- A joint vector within the actuation range `[-RAD_120, RAD_120]`. -/
def inRange (q : Fin N_JOINTS → ℝ) : Prop :=
  ∀ i, -RAD_120 ≤ q i ∧ q i ≤ RAD_120

/-- A concrete collaborator instance (zero Jacobian, zero posture gradient),
used to instantiate universally quantified theorems. -/
def zeroRobot : Robot where
  jacobian := fun _ => 0
  q0dot := fun _ _ => 0

/-! ### The driver step: twist consumption (source lines 115-137) -/

/-- `geometry_msgs` 3-vector (named `Vector3` in the message package; renamed
here to avoid clashing with Mathlib's `Vector3`). -/
structure MsgVector3 where
  x : ℝ
  y : ℝ
  z : ℝ

/-- `geometry_msgs/Twist`: linear and angular velocity components. -/
structure Twist where
  linear : MsgVector3
  angular : MsgVector3

/-- The velocity vector built by `step` (source lines 118-124): only the
three linear components of the stored twist are read. -/
def step_dx (t : Twist) : Fin 3 → ℝ :=
  ![t.linear.x, t.linear.y, t.linear.z]

/-- The joint-position command computed by one `step` (source lines 126-135):
`update_joint_position(read_joint_position, dx, self.gain)` with the default
control period `dt = 0.032`. -/
noncomputable def step_target_joint_position (r : Robot) (target_twist : Twist)
    (gain : ℝ) (read_joint_position : Fin N_JOINTS → ℝ) : Fin N_JOINTS → ℝ :=
  update_joint_position r read_joint_position (step_dx target_twist) gain 0.032

/-! ### The init-joint-state service (source lines 105-113) -/

/-- Result of `init_joint_state_callback`: the positions commanded directly to
the motors, the simulated settle time passed to `delay_simulation`, and the
response. -/
structure InitJointStateResult where
  commanded : Fin N_JOINTS → ℝ
  settle_seconds : ℝ
  success : Bool

/-- `init_joint_state_callback` (source lines 105-113): each motor is
commanded directly to the requested angle, `delay_simulation(1)` is run, and
`response.success = True` is returned. -/
def init_joint_state_callback (joint_state : Fin N_JOINTS → ℝ) : InitJointStateResult where
  commanded := joint_state
  settle_seconds := 1
  success := true

/-! ### The orientation extractor (source lines 64-72) -/

/-- `rotation_matrix_to_quaternion` (source lines 64-72), returning
`[q_x, q_y, q_z, q_w]`. -/
noncomputable def rotation_matrix_to_quaternion (r : Matrix (Fin 3) (Fin 3) ℝ) :
    Fin 4 → ℝ :=
  let q_w := Real.sqrt (1 + r 0 0 + r 1 1 + r 2 2) / 2
  let q_x := (r 2 1 - r 1 2) / (4 * q_w)
  let q_y := (r 0 2 - r 2 0) / (4 * q_w)
  let q_z := (r 1 0 - r 0 1) / (4 * q_w)
  ![q_x, q_y, q_z, q_w]

/-- The rotation matrix represented by a unit quaternion `(x, y, z, w)`
(standard double-cover formula); stated from the spec's words to express that
the extracted quaternion represents the same orientation as its input
(spec §4.2). -/
noncomputable def quaternionToRotation (q : Fin 4 → ℝ) : Matrix (Fin 3) (Fin 3) ℝ :=
  !![1 - 2 * (q 1 ^ 2 + q 2 ^ 2), 2 * (q 0 * q 1 - q 3 * q 2), 2 * (q 0 * q 2 + q 3 * q 1);
     2 * (q 0 * q 1 + q 3 * q 2), 1 - 2 * (q 0 ^ 2 + q 2 ^ 2), 2 * (q 1 * q 2 - q 3 * q 0);
     2 * (q 0 * q 2 - q 3 * q 1), 2 * (q 1 * q 2 + q 3 * q 0), 1 - 2 * (q 0 ^ 2 + q 1 ^ 2)]

/-- Rotation by 90° about the Z axis. -/
noncomputable def Rot90Z : Matrix (Fin 3) (Fin 3) ℝ :=
  !![0, -1, 0; 1, 0, 0; 0, 0, 1]

/-- Rotation by 180° about the Z axis: a proper rotation with trace `-1`. -/
noncomputable def R180 : Matrix (Fin 3) (Fin 3) ℝ :=
  !![-1, 0, 0; 0, -1, 0; 0, 0, 1]

/-! ### Helper lemmas about the actuation range and clamping -/

lemma RAD_120_pos : 0 < RAD_120 := by
  unfold RAD_120
  positivity

lemma RAD_120_lt_three : RAD_120 < 3 := by
  unfold RAD_120
  nlinarith [Real.pi_lt_d2]

lemma clip_le_hi (x : ℝ) : clip x (-RAD_120) RAD_120 ≤ RAD_120 :=
  min_le_right _ _

lemma lo_le_clip (x : ℝ) : -RAD_120 ≤ clip x (-RAD_120) RAD_120 :=
  le_min (le_max_right _ _) (neg_le_self RAD_120_pos.le)

lemma clip_eq_self {x lo hi : ℝ} (h1 : lo ≤ x) (h2 : x ≤ hi) : clip x lo hi = x := by
  unfold clip
  rw [max_eq_left h1, min_eq_left h2]

lemma inRange_zero : inRange fun _ => 0 :=
  fun _ => ⟨neg_nonpos.mpr RAD_120_pos.le, RAD_120_pos.le⟩

/-! ### Claims about the differential IK resolver -/

/-- C1: for every joint vector `q` within range, every `dx`, `J` and `dt`,
when `k0 = 0` (so the collaborator contract drives `q0dot` to the zero
vector), the resolver's output equals `q + J⁺·dx·dt` clamped componentwise to
`[-2π/3, 2π/3]`: the null-space term contributes nothing and the resolver
reduces to a pure pseudo-inverse task-space tracker. -/
theorem C1_pure_task_tracker_when_gain_zero (r : Robot) (q : Fin N_JOINTS → ℝ)
    (dx : Fin 3 → ℝ) (dt : ℝ) (hq : inRange q) (hq0 : r.q0dot q 0 = 0) :
    update_joint_position r q dx 0 dt =
      fun i => clip (q i + (pinv (r.jacobian q) *ᵥ dx) i * dt) (-RAD_120) RAD_120 := by
  funext i
  unfold update_joint_position q_candidate dq
  rw [hq0, Matrix.mulVec_zero, add_zero]

theorem C1_witness :
    inRange (fun _ => 0) ∧
    update_joint_position zeroRobot (fun _ => 0) ![1, 0, 0] 0 0.032 =
      fun i => clip ((fun _ : Fin N_JOINTS => (0 : ℝ)) i +
        (pinv (zeroRobot.jacobian fun _ => 0) *ᵥ ![1, 0, 0]) i * 0.032)
        (-RAD_120) RAD_120 :=
  ⟨inRange_zero,
    C1_pure_task_tracker_when_gain_zero zeroRobot (fun _ => 0) ![1, 0, 0] 0.032
      inRange_zero rfl⟩

/-- C2: for every input, the resolver's output equals the candidate
`q + dq·dt` clamped componentwise and independently to `[-RAD_120, RAD_120]`
(each output component is a function of the corresponding candidate component
alone), hence the output is always within the actuation range. -/
theorem C2_componentwise_saturation (r : Robot) (q : Fin N_JOINTS → ℝ)
    (dx : Fin 3 → ℝ) (k0 dt : ℝ) :
    (∀ i, update_joint_position r q dx k0 dt i =
      clip (q_candidate r q dx k0 dt i) (-RAD_120) RAD_120) ∧
    (∀ i, -RAD_120 ≤ update_joint_position r q dx k0 dt i ∧
      update_joint_position r q dx k0 dt i ≤ RAD_120) :=
  ⟨fun _ => rfl, fun i => ⟨lo_le_clip _, clip_le_hi _⟩⟩

/-- C3: for any `3×N` matrix `J`, the computed Moore–Penrose pseudo-inverse
satisfies `J·J⁺·J = J`, and consequently for any `q0dot` the null-space
projection is non-interfering: `J·(I − J⁺J)·q0dot = 0`. -/
theorem C3_penrose_identity_and_nullspace (n : ℕ) (J : Matrix (Fin 3) (Fin n) ℝ)
    (q0dot : Fin n → ℝ) :
    J * pinv J * J = J ∧ J *ᵥ ((1 - pinv J * J) *ᵥ q0dot) = 0 :=
  ⟨pinv_penrose1 J, nullspace_mulVec J q0dot⟩

/-- C6 (amended: `q` within the actuation range): with zero velocity command,
zero gain and the collaborator contract, the resolver returns `q` unchanged. -/
theorem C6_zero_command_identity (r : Robot) (q : Fin N_JOINTS → ℝ) (dt : ℝ)
    (hq : inRange q) (hq0 : r.q0dot q 0 = 0) :
    update_joint_position r q 0 0 dt = q := by
  have hdq : dq r q 0 0 = 0 := by
    unfold dq
    rw [hq0, Matrix.mulVec_zero, Matrix.mulVec_zero, add_zero]
  funext i
  unfold update_joint_position q_candidate
  rw [hdq]
  simp only [Pi.zero_apply, zero_mul, add_zero]
  exact clip_eq_self (hq i).1 (hq i).2

theorem C6_witness :
    inRange (fun _ => 0) ∧
    update_joint_position zeroRobot (fun _ => 0) 0 0 0.032 = fun _ => 0 :=
  ⟨inRange_zero, C6_zero_command_identity zeroRobot (fun _ => 0) 0.032 inRange_zero rfl⟩

/-- C6 as literally stated is false: for `q` outside the actuation range the
clamp changes it even under a zero command.  At `q ≡ 3` (3 rad > 2π/3) the
resolver returns `RAD_120 ≠ 3`. -/
theorem C6_counterexample :
    update_joint_position zeroRobot (fun _ => 3) 0 0 0.032 ≠ fun _ => 3 := by
  intro hEq
  have hdq : dq zeroRobot (fun _ => 3) 0 0 = 0 := by
    unfold dq
    rw [show zeroRobot.q0dot (fun _ => 3) 0 = 0 from rfl, Matrix.mulVec_zero,
      Matrix.mulVec_zero, add_zero]
  have h0 := congrFun hEq ⟨0, by norm_num [N_JOINTS]⟩
  unfold update_joint_position q_candidate at h0
  rw [hdq] at h0
  simp only [Pi.zero_apply, zero_mul, add_zero] at h0
  have hmax : max (3 : ℝ) (-RAD_120) = 3 :=
    max_eq_left (by nlinarith [RAD_120_pos])
  have hmin : min (3 : ℝ) RAD_120 = RAD_120 :=
    min_eq_right RAD_120_lt_three.le
  unfold clip at h0
  rw [hmax, hmin] at h0
  exact absurd h0 RAD_120_lt_three.ne

/-- C7: when the Jacobian is the zero matrix, its pseudo-inverse is zero, the
task term vanishes, the projector reduces to the identity, and the resolver's
output is `q + q0dot·dt` clamped: a degraded-but-defined state (the embedding
is a total function, so no exception can be raised). -/
theorem C7_zero_jacobian_degraded_state (r : Robot) (q : Fin N_JOINTS → ℝ)
    (dx : Fin 3 → ℝ) (k0 dt : ℝ) (hJ : r.jacobian q = 0) :
    pinv (r.jacobian q) = 0 ∧
    (1 : Matrix (Fin N_JOINTS) (Fin N_JOINTS) ℝ) -
      pinv (r.jacobian q) * r.jacobian q = 1 ∧
    update_joint_position r q dx k0 dt =
      fun i => clip (q i + r.q0dot q k0 i * dt) (-RAD_120) RAD_120 := by
  have hp : pinv (r.jacobian q) = 0 := by
    rw [hJ]
    exact pinv_zero
  refine ⟨hp, ?_, ?_⟩
  · rw [hp, Matrix.zero_mul, sub_zero]
  · have hdq : dq r q dx k0 = r.q0dot q k0 := by
      unfold dq
      rw [hp, Matrix.zero_mulVec, Matrix.zero_mul, sub_zero, Matrix.one_mulVec, zero_add]
    funext i
    unfold update_joint_position q_candidate
    rw [hdq]

theorem C7_witness :
    zeroRobot.jacobian (fun _ => 0) = 0 ∧
    (pinv (zeroRobot.jacobian fun _ => 0) = 0 ∧
      (1 : Matrix (Fin N_JOINTS) (Fin N_JOINTS) ℝ) -
        pinv (zeroRobot.jacobian fun _ => 0) * zeroRobot.jacobian (fun _ => 0) = 1 ∧
      update_joint_position zeroRobot (fun _ => 0) ![1, 2, 3] 5 0.032 =
        fun i => clip ((fun _ : Fin N_JOINTS => (0 : ℝ)) i +
          zeroRobot.q0dot (fun _ => 0) 5 i * 0.032) (-RAD_120) RAD_120) :=
  ⟨rfl, C7_zero_jacobian_degraded_state zeroRobot (fun _ => 0) ![1, 2, 3] 5 0.032 rfl⟩

/-- C8: two control cycles whose twist commands differ only in the angular
components (same joint readings, same linear components, same gain) produce
identical joint-position commands: the resolver consumes only the linear
part of the twist. -/
theorem C8_angular_twist_not_consumed (r : Robot) (t1 t2 : Twist) (gain : ℝ)
    (read_joint_position : Fin N_JOINTS → ℝ) (h : t1.linear = t2.linear) :
    step_target_joint_position r t1 gain read_joint_position =
      step_target_joint_position r t2 gain read_joint_position := by
  unfold step_target_joint_position step_dx
  rw [h]

theorem C8_witness :
    (Twist.mk ⟨1, 2, 3⟩ ⟨0, 0, 0⟩).linear = (Twist.mk ⟨1, 2, 3⟩ ⟨4, 5, 6⟩).linear ∧
    step_target_joint_position zeroRobot (Twist.mk ⟨1, 2, 3⟩ ⟨0, 0, 0⟩) 0.5 (fun _ => 0) =
      step_target_joint_position zeroRobot (Twist.mk ⟨1, 2, 3⟩ ⟨4, 5, 6⟩) 0.5
        (fun _ => 0) :=
  ⟨rfl, C8_angular_twist_not_consumed zeroRobot _ _ 0.5 (fun _ => 0) rfl⟩

/-- C9: the init-joint-state handler commands each actuator directly to the
requested angle (no clamping — note `RAD_120 < 4`, yet a request of 4 rad is
passed through verbatim), waits a settle duration of 1 simulated second, and
always reports success. -/
theorem C9_init_service_always_succeeds :
    (∀ joint_state : Fin N_JOINTS → ℝ,
      (init_joint_state_callback joint_state).commanded = joint_state ∧
      (init_joint_state_callback joint_state).settle_seconds = 1 ∧
      (init_joint_state_callback joint_state).success = true) ∧
    RAD_120 < 4 := by
  refine ⟨fun _ => ⟨rfl, rfl, rfl⟩, ?_⟩
  have := RAD_120_lt_three
  linarith

/-! ### Scalar helper lemmas for the orientation extractor

In the following, `a b c d e f g h i` stand for the entries of a rotation
matrix (row-major) and `s` for `√(1 + trace)`, so that the extracted
quaternion is `x = (h-f)/(2s)`, `y = (c-g)/(2s)`, `z = (d-b)/(2s)`,
`w = s/2`. -/

lemma quat_norm_scalar (u v p s T : ℝ) (hs0 : s ≠ 0) (hs2 : s ^ 2 = T)
    (hK : u ^ 2 + v ^ 2 + p ^ 2 = T * (4 - T)) :
    (u / (2 * s)) ^ 2 + (v / (2 * s)) ^ 2 + (p / (2 * s)) ^ 2 + (s / 2) ^ 2 = 1 := by
  subst hs2
  field_simp
  linear_combination 4 * hK

lemma quat_diag_scalar (w1 u v s T : ℝ) (hs0 : s ≠ 0) (hs2 : s ^ 2 = T)
    (hD : u ^ 2 + v ^ 2 = 2 * T * (1 - w1)) :
    1 - 2 * ((u / (2 * s)) ^ 2 + (v / (2 * s)) ^ 2) = w1 := by
  subst hs2
  field_simp
  linear_combination (-2) * hD

lemma quat_off_sub_scalar (w1 w2 u v s T : ℝ) (hs0 : s ≠ 0) (hs2 : s ^ 2 = T)
    (hO : u * v = T * (w1 + w2)) :
    2 * (u / (2 * s) * (v / (2 * s)) - s / 2 * ((w2 - w1) / (2 * s))) = w1 := by
  subst hs2
  field_simp
  linear_combination 8 * s * hO

lemma quat_off_add_scalar (w1 w2 u v s T : ℝ) (hs0 : s ≠ 0) (hs2 : s ^ 2 = T)
    (hO : u * v = T * (w1 + w2)) :
    2 * (u / (2 * s) * (v / (2 * s)) + s / 2 * ((w2 - w1) / (2 * s))) = w2 := by
  subst hs2
  field_simp
  linear_combination 8 * s * hO

/-- The six quadratic identities satisfied by the entries of a proper rotation
matrix that drive the quaternion extraction: writing `t = trace R`, the three
squared differences of opposite off-diagonal entries are `(1+t)(...)` and the
three products are `(1+t)·(sums)`. -/
lemma rot_key_identities (R : Matrix (Fin 3) (Fin 3) ℝ) (horth : Rᵀ * R = 1)
    (hdet : R.det = 1) :
    ((R 0 2 - R 2 0) ^ 2 + (R 1 0 - R 0 1) ^ 2
        = 2 * (1 + R 0 0 + R 1 1 + R 2 2) * (1 - R 0 0)) ∧
    ((R 2 1 - R 1 2) ^ 2 + (R 1 0 - R 0 1) ^ 2
        = 2 * (1 + R 0 0 + R 1 1 + R 2 2) * (1 - R 1 1)) ∧
    ((R 2 1 - R 1 2) ^ 2 + (R 0 2 - R 2 0) ^ 2
        = 2 * (1 + R 0 0 + R 1 1 + R 2 2) * (1 - R 2 2)) ∧
    ((R 2 1 - R 1 2) * (R 0 2 - R 2 0)
        = (1 + R 0 0 + R 1 1 + R 2 2) * (R 0 1 + R 1 0)) ∧
    ((R 2 1 - R 1 2) * (R 1 0 - R 0 1)
        = (1 + R 0 0 + R 1 1 + R 2 2) * (R 2 0 + R 0 2)) ∧
    ((R 0 2 - R 2 0) * (R 1 0 - R 0 1)
        = (1 + R 0 0 + R 1 1 + R 2 2) * (R 1 2 + R 2 1)) := by
  have hrr : R * Rᵀ = 1 := Matrix.mul_eq_one_comm.mp horth
  have hadj : R.adjugate = Rᵀ := by
    have h1 : R * R.adjugate = 1 := by rw [Matrix.mul_adjugate, hdet, one_smul]
    calc R.adjugate = 1 * R.adjugate := (Matrix.one_mul _).symm
      _ = Rᵀ * R * R.adjugate := by rw [horth]
      _ = Rᵀ * (R * R.adjugate) := Matrix.mul_assoc _ _ _
      _ = Rᵀ := by rw [h1, Matrix.mul_one]
  rw [Matrix.adjugate_fin_three] at hadj
  have hA1 := Matrix.ext_iff.2 hrr 0 0
  have hA2 := Matrix.ext_iff.2 hrr 1 1
  have hA3 := Matrix.ext_iff.2 hrr 2 2
  have hA4 := Matrix.ext_iff.2 hrr 0 1
  have hA5 := Matrix.ext_iff.2 hrr 0 2
  have hA6 := Matrix.ext_iff.2 hrr 1 2
  have hC1 := Matrix.ext_iff.2 horth 0 0
  have hC4 := Matrix.ext_iff.2 horth 0 1
  have hC5 := Matrix.ext_iff.2 horth 0 2
  have hC2 := Matrix.ext_iff.2 horth 1 1
  have hC6 := Matrix.ext_iff.2 horth 1 2
  have hC3 := Matrix.ext_iff.2 horth 2 2
  simp only [Matrix.mul_apply, Fin.sum_univ_three, Matrix.transpose_apply,
    Matrix.one_apply_eq, Matrix.one_apply_ne, ne_eq, Fin.reduceEq,
    not_false_eq_true] at hA1 hA2 hA3 hA4 hA5 hA6 hC1 hC2 hC3 hC4 hC5 hC6
  have hBa := Matrix.ext_iff.2 hadj 0 0
  have hBd := Matrix.ext_iff.2 hadj 0 1
  have hBg := Matrix.ext_iff.2 hadj 0 2
  have hBb := Matrix.ext_iff.2 hadj 1 0
  have hBe := Matrix.ext_iff.2 hadj 1 1
  have hBh := Matrix.ext_iff.2 hadj 1 2
  have hBc := Matrix.ext_iff.2 hadj 2 0
  have hBf := Matrix.ext_iff.2 hadj 2 1
  have hBi := Matrix.ext_iff.2 hadj 2 2
  simp only [Matrix.cons_val_zero, Matrix.cons_val_one, Matrix.head_cons,
    Matrix.cons_val_two, Matrix.tail_cons, Matrix.head_fin_const, Matrix.of_apply,
    Matrix.cons_val', Matrix.empty_val', Matrix.cons_val_fin_one,
    Matrix.transpose_apply] at hBa hBb hBc hBd hBe hBf hBg hBh hBi
  refine ⟨?_, ?_, ?_, ?_, ?_, ?_⟩
  · linear_combination hA1 + hC1 + 2 * hBe + 2 * hBi
  · linear_combination hA2 + hC2 + 2 * hBa + 2 * hBi
  · linear_combination hA3 + hC3 + 2 * hBa + 2 * hBe
  · linear_combination hBb + hBd - hC4 - hA4
  · linear_combination hBc + hBg - hA5 - hC5
  · linear_combination hBf + hBh - hA6 - hC6

/-- The extracted quaternion, componentwise (`4·(√S/2) = 2·√S`). -/
lemma r2q_eq (R : Matrix (Fin 3) (Fin 3) ℝ) :
    rotation_matrix_to_quaternion R =
      ![(R 2 1 - R 1 2) / (2 * Real.sqrt (1 + R 0 0 + R 1 1 + R 2 2)),
        (R 0 2 - R 2 0) / (2 * Real.sqrt (1 + R 0 0 + R 1 1 + R 2 2)),
        (R 1 0 - R 0 1) / (2 * Real.sqrt (1 + R 0 0 + R 1 1 + R 2 2)),
        Real.sqrt (1 + R 0 0 + R 1 1 + R 2 2) / 2] := by
  simp only [rotation_matrix_to_quaternion]
  rw [show 4 * (Real.sqrt (1 + R 0 0 + R 1 1 + R 2 2) / 2)
      = 2 * Real.sqrt (1 + R 0 0 + R 1 1 + R 2 2) from by ring]

/-- C4: for every proper rotation matrix `R` whose trace is not `-1` or
below, the extractor returns a unit quaternion representing the same
orientation as `R` (it reconstructs `R` through the standard double-cover
formula); in particular the identity matrix yields `(0,0,0,1)` and a 90°
rotation about Z yields `(0,0,sin 45°,cos 45°)`. -/
theorem C4_unit_quaternion_same_orientation (R : Matrix (Fin 3) (Fin 3) ℝ)
    (horth : Rᵀ * R = 1) (hdet : R.det = 1)
    (htr : -1 < R 0 0 + R 1 1 + R 2 2) :
    (rotation_matrix_to_quaternion R 0 ^ 2 + rotation_matrix_to_quaternion R 1 ^ 2 +
      rotation_matrix_to_quaternion R 2 ^ 2 + rotation_matrix_to_quaternion R 3 ^ 2 = 1) ∧
    quaternionToRotation (rotation_matrix_to_quaternion R) = R ∧
    rotation_matrix_to_quaternion 1 = ![0, 0, 0, 1] ∧
    rotation_matrix_to_quaternion Rot90Z =
      ![0, 0, Real.sin (Real.pi / 4), Real.cos (Real.pi / 4)] := by
  obtain ⟨hD1, hD2, hD3, hO1, hO2, hO3⟩ := rot_key_identities R horth hdet
  have hS0 : (0 : ℝ) < 1 + R 0 0 + R 1 1 + R 2 2 := by linarith
  have hs0 : Real.sqrt (1 + R 0 0 + R 1 1 + R 2 2) ≠ 0 := (Real.sqrt_pos.mpr hS0).ne'
  have hs2 : Real.sqrt (1 + R 0 0 + R 1 1 + R 2 2) ^ 2 = 1 + R 0 0 + R 1 1 + R 2 2 :=
    Real.sq_sqrt hS0.le
  have h0 := congrFun (r2q_eq R) 0
  have h1 := congrFun (r2q_eq R) 1
  have h2 := congrFun (r2q_eq R) 2
  have h3 := congrFun (r2q_eq R) 3
  simp only [Matrix.cons_val_zero, Matrix.cons_val_one, Matrix.head_cons,
    Matrix.cons_val_two, Matrix.tail_cons, Matrix.cons_val_three] at h0 h1 h2 h3
  have hK : (R 2 1 - R 1 2) ^ 2 + (R 0 2 - R 2 0) ^ 2 + (R 1 0 - R 0 1) ^ 2 =
      (1 + R 0 0 + R 1 1 + R 2 2) * (4 - (1 + R 0 0 + R 1 1 + R 2 2)) := by
    linear_combination hD1 / 2 + hD2 / 2 + hD3 / 2
  refine ⟨?_, ?_, ?_, ?_⟩
  · rw [h0, h1, h2, h3]
    exact quat_norm_scalar _ _ _ _ _ hs0 hs2 hK
  · ext p q
    fin_cases p <;> fin_cases q
    · show 1 - 2 * (rotation_matrix_to_quaternion R 1 ^ 2 +
        rotation_matrix_to_quaternion R 2 ^ 2) = R 0 0
      rw [h1, h2]
      exact quat_diag_scalar _ _ _ _ _ hs0 hs2 hD1
    · show 2 * (rotation_matrix_to_quaternion R 0 * rotation_matrix_to_quaternion R 1 -
        rotation_matrix_to_quaternion R 3 * rotation_matrix_to_quaternion R 2) = R 0 1
      rw [h0, h1, h2, h3]
      exact quat_off_sub_scalar _ _ _ _ _ _ hs0 hs2 hO1
    · show 2 * (rotation_matrix_to_quaternion R 0 * rotation_matrix_to_quaternion R 2 +
        rotation_matrix_to_quaternion R 3 * rotation_matrix_to_quaternion R 1) = R 0 2
      rw [h0, h1, h2, h3]
      exact quat_off_add_scalar _ _ _ _ _ _ hs0 hs2 hO2
    · show 2 * (rotation_matrix_to_quaternion R 0 * rotation_matrix_to_quaternion R 1 +
        rotation_matrix_to_quaternion R 3 * rotation_matrix_to_quaternion R 2) = R 1 0
      rw [h0, h1, h2, h3]
      exact quat_off_add_scalar _ _ _ _ _ _ hs0 hs2 hO1
    · show 1 - 2 * (rotation_matrix_to_quaternion R 0 ^ 2 +
        rotation_matrix_to_quaternion R 2 ^ 2) = R 1 1
      rw [h0, h2]
      exact quat_diag_scalar _ _ _ _ _ hs0 hs2 hD2
    · show 2 * (rotation_matrix_to_quaternion R 1 * rotation_matrix_to_quaternion R 2 -
        rotation_matrix_to_quaternion R 3 * rotation_matrix_to_quaternion R 0) = R 1 2
      rw [h0, h1, h2, h3]
      exact quat_off_sub_scalar _ _ _ _ _ _ hs0 hs2 hO3
    · show 2 * (rotation_matrix_to_quaternion R 0 * rotation_matrix_to_quaternion R 2 -
        rotation_matrix_to_quaternion R 3 * rotation_matrix_to_quaternion R 1) = R 2 0
      rw [h0, h1, h2, h3]
      exact quat_off_sub_scalar _ _ _ _ _ _ hs0 hs2 hO2
    · show 2 * (rotation_matrix_to_quaternion R 1 * rotation_matrix_to_quaternion R 2 +
        rotation_matrix_to_quaternion R 3 * rotation_matrix_to_quaternion R 0) = R 2 1
      rw [h0, h1, h2, h3]
      exact quat_off_add_scalar _ _ _ _ _ _ hs0 hs2 hO3
    · show 1 - 2 * (rotation_matrix_to_quaternion R 0 ^ 2 +
        rotation_matrix_to_quaternion R 1 ^ 2) = R 2 2
      rw [h0, h1]
      exact quat_diag_scalar _ _ _ _ _ hs0 hs2 hD3
  · have h4 : Real.sqrt 4 = 2 := by
      rw [show (4 : ℝ) = 2 ^ 2 by norm_num]
      exact Real.sqrt_sq (by norm_num)
    have e00 : (1 : Matrix (Fin 3) (Fin 3) ℝ) 0 0 = 1 := Matrix.one_apply_eq 0
    have e11 : (1 : Matrix (Fin 3) (Fin 3) ℝ) 1 1 = 1 := Matrix.one_apply_eq 1
    have e22 : (1 : Matrix (Fin 3) (Fin 3) ℝ) 2 2 = 1 := Matrix.one_apply_eq 2
    have e01 : (1 : Matrix (Fin 3) (Fin 3) ℝ) 0 1 = 0 := Matrix.one_apply_ne (by decide)
    have e02 : (1 : Matrix (Fin 3) (Fin 3) ℝ) 0 2 = 0 := Matrix.one_apply_ne (by decide)
    have e10 : (1 : Matrix (Fin 3) (Fin 3) ℝ) 1 0 = 0 := Matrix.one_apply_ne (by decide)
    have e12 : (1 : Matrix (Fin 3) (Fin 3) ℝ) 1 2 = 0 := Matrix.one_apply_ne (by decide)
    have e20 : (1 : Matrix (Fin 3) (Fin 3) ℝ) 2 0 = 0 := Matrix.one_apply_ne (by decide)
    have e21 : (1 : Matrix (Fin 3) (Fin 3) ℝ) 2 1 = 0 := Matrix.one_apply_ne (by decide)
    funext i
    fin_cases i <;>
      norm_num [r2q_eq, h4, e00, e11, e22, e01, e02, e10, e12, e20, e21]
  · have hsq2 : Real.sqrt 2 * Real.sqrt 2 = 2 := Real.mul_self_sqrt (by norm_num)
    have z00 : Rot90Z 0 0 = 0 := rfl
    have z01 : Rot90Z 0 1 = -1 := rfl
    have z02 : Rot90Z 0 2 = 0 := rfl
    have z10 : Rot90Z 1 0 = 1 := rfl
    have z11 : Rot90Z 1 1 = 0 := rfl
    have z12 : Rot90Z 1 2 = 0 := rfl
    have z20 : Rot90Z 2 0 = 0 := rfl
    have z21 : Rot90Z 2 1 = 0 := rfl
    have z22 : Rot90Z 2 2 = 1 := rfl
    funext i
    fin_cases i
    · norm_num [r2q_eq, z00, z01, z02, z10, z11, z12, z20, z21, z22]
    · norm_num [r2q_eq, z00, z01, z02, z10, z11, z12, z20, z21, z22]
    · norm_num [r2q_eq, z00, z01, z02, z10, z11, z12, z20, z21, z22,
        Real.sin_pi_div_four]
      rw [div_eq_div_iff (by positivity) (by norm_num : (2 : ℝ) ≠ 0)]
      linear_combination (-2) * hsq2
    · norm_num [r2q_eq, z00, z01, z02, z10, z11, z12, z20, z21, z22,
        Real.cos_pi_div_four]

theorem C4_witness :
    (((1 : Matrix (Fin 3) (Fin 3) ℝ)ᵀ * 1 = 1) ∧ (1 : Matrix (Fin 3) (Fin 3) ℝ).det = 1 ∧
      -1 < (1 : Matrix (Fin 3) (Fin 3) ℝ) 0 0 + (1 : Matrix (Fin 3) (Fin 3) ℝ) 1 1 +
        (1 : Matrix (Fin 3) (Fin 3) ℝ) 2 2) ∧
    ((rotation_matrix_to_quaternion (1 : Matrix (Fin 3) (Fin 3) ℝ) 0 ^ 2 +
        rotation_matrix_to_quaternion (1 : Matrix (Fin 3) (Fin 3) ℝ) 1 ^ 2 +
        rotation_matrix_to_quaternion (1 : Matrix (Fin 3) (Fin 3) ℝ) 2 ^ 2 +
        rotation_matrix_to_quaternion (1 : Matrix (Fin 3) (Fin 3) ℝ) 3 ^ 2 = 1) ∧
      quaternionToRotation (rotation_matrix_to_quaternion (1 : Matrix (Fin 3) (Fin 3) ℝ)) = 1 ∧
      rotation_matrix_to_quaternion 1 = ![0, 0, 0, 1] ∧
      rotation_matrix_to_quaternion Rot90Z =
        ![0, 0, Real.sin (Real.pi / 4), Real.cos (Real.pi / 4)]) := by
  have ho : (1 : Matrix (Fin 3) (Fin 3) ℝ)ᵀ * 1 = 1 := by
    rw [Matrix.transpose_one, Matrix.one_mul]
  have hd : (1 : Matrix (Fin 3) (Fin 3) ℝ).det = 1 := Matrix.det_one
  have ht : -1 < (1 : Matrix (Fin 3) (Fin 3) ℝ) 0 0 + (1 : Matrix (Fin 3) (Fin 3) ℝ) 1 1 +
      (1 : Matrix (Fin 3) (Fin 3) ℝ) 2 2 := by
    rw [Matrix.one_apply_eq, Matrix.one_apply_eq, Matrix.one_apply_eq]
    norm_num
  exact ⟨⟨ho, hd, ht⟩, C4_unit_quaternion_same_orientation 1 ho hd ht⟩

/-- C5: at the proper rotation by 180° about Z (trace `-1`), the computed
scalar component `w` is zero, the denominator `4w` of the x/y/z formulas is
zero (the implementation does not guard this case), and the returned
quaternion degenerates to the zero vector — not a unit quaternion. -/
theorem C5_division_by_zero_at_trace_minus_one :
    R180ᵀ * R180 = 1 ∧ R180.det = 1 ∧
    1 + R180 0 0 + R180 1 1 + R180 2 2 = 0 ∧
    rotation_matrix_to_quaternion R180 3 = 0 ∧
    4 * rotation_matrix_to_quaternion R180 3 = 0 ∧
    rotation_matrix_to_quaternion R180 = ![0, 0, 0, 0] := by
  have p00 : R180 0 0 = -1 := rfl
  have p01 : R180 0 1 = 0 := rfl
  have p02 : R180 0 2 = 0 := rfl
  have p10 : R180 1 0 = 0 := rfl
  have p11 : R180 1 1 = -1 := rfl
  have p12 : R180 1 2 = 0 := rfl
  have p20 : R180 2 0 = 0 := rfl
  have p21 : R180 2 1 = 0 := rfl
  have p22 : R180 2 2 = 1 := rfl
  have hqeq : rotation_matrix_to_quaternion R180 = ![0, 0, 0, 0] := by
    rw [r2q_eq, p00, p01, p02, p10, p11, p12, p20, p21, p22]
    norm_num [Real.sqrt_zero]
  have hw0 : rotation_matrix_to_quaternion R180 3 = 0 := by rw [hqeq]; rfl
  have hsymm : R180ᵀ = R180 := by
    ext i j
    fin_cases i <;> fin_cases j <;> rfl
  refine ⟨?_, ?_, ?_, hw0, by rw [hw0]; ring, hqeq⟩
  · rw [hsymm]
    show (!![-1, 0, 0; 0, -1, 0; 0, 0, 1] : Matrix (Fin 3) (Fin 3) ℝ) *
      !![-1, 0, 0; 0, -1, 0; 0, 0, 1] = 1
    rw [Matrix.mul_fin_three, Matrix.one_fin_three]
    norm_num
  · rw [Matrix.det_fin_three, p00, p01, p02, p10, p11, p12, p20, p21, p22]
    norm_num
  · rw [p00, p11, p22]
    norm_num

/-- C10: whenever the square root in the extractor is applied to a
non-negative argument (`1 + trace ≥ 0`), the returned scalar component `w`
is non-negative: of the two double-cover representatives `q` and `-q`, the
extractor always returns the one with `w ≥ 0`. -/
theorem C10_scalar_component_nonneg (R : Matrix (Fin 3) (Fin 3) ℝ)
    (h : 0 ≤ 1 + R 0 0 + R 1 1 + R 2 2) :
    0 ≤ rotation_matrix_to_quaternion R 3 := by
  have h3 := congrFun (r2q_eq R) 3
  simp only [Matrix.cons_val_three, Matrix.head_cons, Matrix.tail_cons] at h3
  rw [h3]
  positivity

theorem C10_witness :
    (0 : ℝ) ≤ 1 + (1 : Matrix (Fin 3) (Fin 3) ℝ) 0 0 +
      (1 : Matrix (Fin 3) (Fin 3) ℝ) 1 1 + (1 : Matrix (Fin 3) (Fin 3) ℝ) 2 2 ∧
    0 ≤ rotation_matrix_to_quaternion (1 : Matrix (Fin 3) (Fin 3) ℝ) 3 := by
  have hh : (0 : ℝ) ≤ 1 + (1 : Matrix (Fin 3) (Fin 3) ℝ) 0 0 +
      (1 : Matrix (Fin 3) (Fin 3) ℝ) 1 1 + (1 : Matrix (Fin 3) (Fin 3) ℝ) 2 2 := by
    rw [Matrix.one_apply_eq, Matrix.one_apply_eq, Matrix.one_apply_eq]
    norm_num
  exact ⟨hh, C10_scalar_component_nonneg 1 hh⟩
